import Mathlib

/-!
Verification of the Tube_measurement quality-control station.

This file is a shallow embedding of the repository's Python sources
(`conversion.py`, `measurement.py`, `config_store.py`, `hmi.py`,
`al1322_client.py`) into Lean 4, together with theorems settling the
frozen claims about the natural-language specification.

Modelling conventions:
* Python `float` is modelled by `Flt`: an exact rational together with
  the special values `nan`, `inf`, `ninf`.  Arithmetic on finite values
  is exact (no rounding/overflow); NaN/infinity propagation and the
  comparison semantics (`NaN` compares false) follow IEEE-754 as Python
  implements them.
* Python `str` is modelled by `PyStr := List Char`; the helper functions
  (`pyStrip`, `pySplitWs`, `pyLower`, ...) model the corresponding
  Python `str` methods for the ASCII inputs this protocol uses.
* Python `int` is `ℤ` (arbitrary precision, as in Python); byte values
  are `ℕ` (each `< 256` where produced by the embedded decoders).
* Fallible code (`raise ConversionError`, `raise ValueError`) is
  modelled by `Except PyErr`.
-/

/-- Errors raised by the embedded Python code paths. -/
inductive PyErr where
  | conversionError
  | valueError
deriving DecidableEq, Repr

/-- Python strings, modelled as lists of characters. -/
abbrev PyStr := List Char

/-- Coerce a Lean string literal to the `PyStr` model. -/
def ps (s : String) : PyStr := s.data

/-- Python `float`, modelled as an exact rational plus IEEE special values. -/
inductive Flt where
  | fin (q : ℚ)
  | inf
  | ninf
  | nan
deriving DecidableEq, Repr

namespace Flt

/-- `math.isfinite`. -/
def isFinite : Flt → Bool
  | fin _ => true
  | _ => false

/-- Unary negation on Python floats. -/
def neg : Flt → Flt
  | fin q => fin (-q)
  | inf => ninf
  | ninf => inf
  | nan => nan

/-- Python `abs` on floats. -/
def fabs : Flt → Flt
  | fin q => fin |q|
  | inf => inf
  | ninf => inf
  | nan => nan

/-- Python float addition (exact on finite values). -/
def add : Flt → Flt → Flt
  | nan, _ => nan
  | _, nan => nan
  | fin a, fin b => fin (a + b)
  | fin _, inf => inf
  | fin _, ninf => ninf
  | inf, fin _ => inf
  | ninf, fin _ => ninf
  | inf, inf => inf
  | inf, ninf => nan
  | ninf, inf => nan
  | ninf, ninf => ninf

/-- Python float subtraction. -/
def sub (a b : Flt) : Flt := add a (neg b)

/-- Python float multiplication (exact on finite values). -/
def mul : Flt → Flt → Flt
  | nan, _ => nan
  | _, nan => nan
  | fin a, fin b => fin (a * b)
  | fin a, inf => if a > 0 then inf else if a < 0 then ninf else nan
  | fin a, ninf => if a > 0 then ninf else if a < 0 then inf else nan
  | inf, fin b => if b > 0 then inf else if b < 0 then ninf else nan
  | ninf, fin b => if b > 0 then ninf else if b < 0 then inf else nan
  | inf, inf => inf
  | inf, ninf => ninf
  | ninf, inf => ninf
  | ninf, ninf => inf

/-- Python `<=` on floats: any comparison with NaN is false. -/
def ble : Flt → Flt → Bool
  | nan, _ => false
  | _, nan => false
  | fin a, fin b => decide (a ≤ b)
  | fin _, inf => true
  | fin _, ninf => false
  | inf, fin _ => false
  | inf, inf => true
  | inf, ninf => false
  | ninf, _ => true

/-- Python `<` on floats: any comparison with NaN is false. -/
def blt : Flt → Flt → Bool
  | nan, _ => false
  | _, nan => false
  | fin a, fin b => decide (a < b)
  | fin _, inf => true
  | fin _, ninf => false
  | inf, _ => false
  | ninf, ninf => false
  | ninf, _ => true

/-- The rational carried by a finite float (junk value `0` otherwise). -/
def toQ : Flt → ℚ
  | fin q => q
  | _ => 0

end Flt

/-! ### Python `str` helpers (ASCII semantics of the methods the code uses) -/

/-- Python `str.strip()` whitespace set (ASCII part). -/
def pyIsSpace (c : Char) : Bool :=
  c = ' ' || c = '\t' || c = '\n' || c = '\x0d' || c = '\x0b' || c = '\x0c'

/-- Python `str.strip()`. -/
def pyStrip (l : PyStr) : PyStr :=
  ((l.dropWhile pyIsSpace).reverse.dropWhile pyIsSpace).reverse

/-- ASCII lower-casing of one character (Python `str.lower` on ASCII). -/
def pyLowerChar (c : Char) : Char :=
  if 'A' ≤ c ∧ c ≤ 'Z' then Char.ofNat (c.toNat + 32) else c

/-- ASCII upper-casing of one character (Python `str.upper` on ASCII). -/
def pyUpperChar (c : Char) : Char :=
  if 'a' ≤ c ∧ c ≤ 'z' then Char.ofNat (c.toNat - 32) else c

/-- Python `str.lower()` (ASCII). -/
def pyLower (l : PyStr) : PyStr := l.map pyLowerChar

/-- Python `str.upper()` (ASCII). -/
def pyUpper (l : PyStr) : PyStr := l.map pyUpperChar

/-- Python `str.split()` with no argument: split on runs of whitespace. -/
def pySplitWs : PyStr → List PyStr
  | [] => []
  | c :: rest =>
    if pyIsSpace c then pySplitWs rest
    else
      (c :: rest.takeWhile (fun x => !pyIsSpace x)) ::
        pySplitWs (rest.dropWhile (fun x => !pyIsSpace x))
termination_by l => l.length
decreasing_by
  · simp
  · have h := (List.dropWhile_sublist (l := rest) (fun x => !pyIsSpace x)).length_le
    simp only [List.length_cons]
    omega

/-- Python `s.split(sep, 1)` on a string known to contain `sep`:
the pieces before and after the first occurrence. -/
def pySplitOnce (sep : Char) : PyStr → PyStr × PyStr
  | [] => ([], [])
  | c :: rest =>
    if c = sep then ([], rest)
    else
      let (a, b) := pySplitOnce sep rest
      (c :: a, b)

/-- Membership of a character in a Python string (`sep in s`). -/
def pyContains (l : PyStr) (c : Char) : Bool := l.contains c

/-- Decimal digit test (Python `str.isdigit` on ASCII). -/
def pyIsDigit (c : Char) : Bool := '0' ≤ c ∧ c ≤ '9'

/-- Numeric value of a decimal digit character. -/
def digitVal (c : Char) : ℕ := c.toNat - 48

/-- Parse the tail of a Python digit group, allowing single underscores
between digits (`10_000` is a valid Python numeric literal). -/
def parseDigitsAux (acc : ℕ) : PyStr → Option ℕ
  | [] => some acc
  | '_' :: c :: rest =>
    if pyIsDigit c then parseDigitsAux (acc * 10 + digitVal c) rest else none
  | c :: rest =>
    if pyIsDigit c then parseDigitsAux (acc * 10 + digitVal c) rest else none

/-- Parse a nonempty Python digit group (digits with single interior
underscores) to its value. -/
def parseDigits : PyStr → Option ℕ
  | c :: rest => if pyIsDigit c then parseDigitsAux (digitVal c) rest else none
  | [] => none

/-- Python `int(str)`: strip whitespace, optional sign, digit group.
`int("03") = 3`, `int(" +7 ") = 7`, `int("1_0") = 10`; anything else
raises (modelled as `none`). -/
def pyInt (l : PyStr) : Option ℤ :=
  let t := pyStrip l
  match t with
  | '+' :: rest => (parseDigits rest).map (fun n => (n : ℤ))
  | '-' :: rest => (parseDigits rest).map (fun n => -(n : ℤ))
  | _ => (parseDigits t).map (fun n => (n : ℤ))

/-- Value of a Python digit group together with its digit count
(used for fraction parts), `none` on malformed groups. -/
def parseDigitsCount : PyStr → Option (ℕ × ℕ)
  | c :: rest =>
    if pyIsDigit c then go (digitVal c) 1 rest else none
  | [] => none
where
  go (acc cnt : ℕ) : PyStr → Option (ℕ × ℕ)
    | [] => some (acc, cnt)
    | '_' :: c :: rest =>
      if pyIsDigit c then go (acc * 10 + digitVal c) (cnt + 1) rest else none
    | c :: rest =>
      if pyIsDigit c then go (acc * 10 + digitVal c) (cnt + 1) rest else none

/-- Split a digit group off the front of a string: returns the longest
prefix forming a Python digit group (digits with single interior
underscores) and the remainder. -/
def takeDigitGroup : PyStr → PyStr × PyStr
  | [] => ([], [])
  | c :: '_' :: c' :: rest' =>
    if pyIsDigit c then
      if pyIsDigit c' then
        let (g, r) := takeDigitGroup (c' :: rest')
        (c :: '_' :: g, r)
      else ([c], '_' :: c' :: rest')
    else ([], c :: '_' :: c' :: rest')
  | c :: rest =>
    if pyIsDigit c then
      let (g, r) := takeDigitGroup rest
      (c :: g, r)
    else ([], c :: rest)
termination_by l => l.length
decreasing_by
  · simp
  · simp

/-- Python `float(str)` on a stripped, signless body: decimal forms
`digits`, `digits.`, `digits.digits`, `.digits`, each with an optional
exponent, plus the keywords `inf`, `infinity`, `nan` (case-insensitive). -/
def pyFloatBody (l : PyStr) : Option Flt :=
  let low := pyLower l
  if low = ps "inf" ∨ low = ps "infinity" then some .inf
  else if low = ps "nan" then some .nan
  else
    let (ip, rest) := takeDigitGroup l
    let ipVal : Option ℕ := (parseDigitsCount ip).map Prod.fst
    let (fracVal, fracCnt, rest2) :=
      match rest with
      | '.' :: r =>
        let (fp, r2) := takeDigitGroup r
        match parseDigitsCount fp with
        | some (v, c) => (some v, c, r2)
        | none => (none, 0, r2)
      | _ => (none, 0, rest)
    let expVal : Option ℤ :=
      match rest2 with
      | [] => some 0
      | e :: r3 =>
        if e = 'e' ∨ e = 'E' then
          match r3 with
          | '+' :: r4 => (parseDigitsCount r4).map (fun p => (p.1 : ℤ))
          | '-' :: r4 => (parseDigitsCount r4).map (fun p => -(p.1 : ℤ))
          | _ => (parseDigitsCount r3).map (fun p => (p.1 : ℤ))
        else none
    match ipVal, fracVal, expVal with
    | some i, some f, some e =>
      some (.fin (((i : ℚ) + (f : ℚ) / 10 ^ fracCnt) * (10 : ℚ) ^ e))
    | some i, none, some e =>
      if rest2 = rest ∨ (rest.headI = '.' ∧ rest.tail = rest2) then
        some (.fin ((i : ℚ) * (10 : ℚ) ^ e))
      else none
    | none, some f, some e =>
      if ip = [] then some (.fin (((f : ℚ) / 10 ^ fracCnt) * (10 : ℚ) ^ e))
      else none
    | _, _, _ => none

/-- Python `float(str)`: strip whitespace, optional sign, then a decimal
literal or `inf`/`nan` keyword; returns `none` where Python raises
`ValueError`. -/
def pyFloat (l : PyStr) : Option Flt :=
  let t := pyStrip l
  match t with
  | '+' :: rest => pyFloatBody rest
  | '-' :: rest => (pyFloatBody rest).map Flt.neg
  | _ => pyFloatBody t

/-! ### conversion.py -/

/-- Hexadecimal digit test (`[0-9a-fA-F]`). -/
def isHexDigit (c : Char) : Bool :=
  pyIsDigit c || ('a' ≤ c ∧ c ≤ 'f') || ('A' ≤ c ∧ c ≤ 'F')

/-- Numeric value of a hexadecimal digit character. -/
def hexVal (c : Char) : ℕ :=
  if pyIsDigit c then c.toNat - 48
  else if 'a' ≤ c ∧ c ≤ 'f' then c.toNat - 87
  else c.toNat - 55

/-- `HEX_RE.match`: the full string matches
`^0x[0-9a-fA-F]+$|^[0-9a-fA-F]+$`. -/
def hexReMatch (l : PyStr) : Bool :=
  (match l with
   | '0' :: 'x' :: rest => rest ≠ [] && rest.all isHexDigit
   | _ => false) ||
  (l ≠ [] && l.all isHexDigit)

/-- `bytes.fromhex` on an even-length string of hex digits; Python
raises `ValueError` on any other input (e.g. a surviving `0x` prefix). -/
def bytesFromHex : PyStr → Except PyErr (List ℕ)
  | [] => .ok []
  | a :: b :: rest =>
    if isHexDigit a && isHexDigit b then
      match bytesFromHex rest with
      | .ok bs => .ok ((16 * hexVal a + hexVal b) :: bs)
      | .error e => .error e
    else .error .valueError
  | _ => .error .valueError

/-- `hex_to_bytes`: strip whitespace, drop a `0x`/`0X` prefix, left-pad
odd lengths with `0`, validate against `HEX_RE`, then `bytes.fromhex`. -/
def hex_to_bytes (s : PyStr) : Except PyErr (List ℕ) :=
  let clean := pyStrip s
  let clean := match clean with
    | '0' :: 'x' :: rest => rest
    | '0' :: 'X' :: rest => rest
    | l => l
  let clean := if clean.length % 2 = 1 then '0' :: clean else clean
  if hexReMatch clean then bytesFromHex clean else .error .conversionError

/-- `int.from_bytes(_, "big", signed=False)`. -/
def fromBytesBE (bs : List ℕ) : ℕ := bs.foldl (fun acc b => acc * 256 + b) 0

/-- Two's-complement reinterpretation of an unsigned `bits`-bit value
(`int.from_bytes(..., signed=True)` on `bits/8` bytes). -/
def toSigned (u : ℕ) (bits : ℕ) : ℤ :=
  if u < 2 ^ (bits - 1) then (u : ℤ) else (u : ℤ) - 2 ^ bits

/-- `_apply_bit_slice`: extract `bit_length` bits starting at `start_bit`
(bit 0 least significant) by mask and shift; when `signed`, reinterpret
the slice in two's complement using the slice's own top bit. -/
def _apply_bit_slice (value : ℤ) (start_bit bit_length : ℕ) (signed : Bool) : ℤ :=
  if bit_length ≤ 0 then value
  else
    let mask : ℤ := 2 ^ bit_length - 1
    let sliced := Int.land (Int.shiftRight value start_bit) mask
    if signed then
      let sign_bit : ℤ := 2 ^ (bit_length - 1)
      if Int.land sliced sign_bit ≠ 0 then sliced - 2 ^ bit_length else sliced
    else sliced

/-- IEEE-754 decoding of an unsigned bit pattern `u` with `ebits`
exponent bits and `mbits` mantissa bits into the float model
(`struct.unpack` of `f`/`d` patterns). -/
def decodeIEEE (ebits mbits : ℕ) (u : ℕ) : Flt :=
  let sign := u / 2 ^ (ebits + mbits) % 2
  let e := u / 2 ^ mbits % 2 ^ ebits
  let f := u % 2 ^ mbits
  if e = 2 ^ ebits - 1 then
    if f = 0 then (if sign = 1 then .ninf else .inf) else .nan
  else
    let bias : ℤ := 2 ^ (ebits - 1) - 1
    let mag : ℚ :=
      if e = 0 then ((f : ℚ) / 2 ^ mbits) * (2 : ℚ) ^ (1 - bias)
      else (1 + (f : ℚ) / 2 ^ mbits) * (2 : ℚ) ^ ((e : ℤ) - bias)
    .fin (if sign = 1 then -mag else mag)

/-- Per-channel decode configuration (`ChannelConfig` dataclass). -/
structure ChannelConfig where
  raw_format : PyStr := ps "uint_be"
  scale : ℚ := 1 / 1000
  offset : ℚ := 0
  start_bit : Option ℕ := none
  bit_length : Option ℕ := none
deriving DecidableEq, Repr

/-- `decode_raw_value`: hex string plus channel format to a raw float. -/
def decode_raw_value (s : PyStr) (cfg : ChannelConfig) : Except PyErr Flt :=
  match hex_to_bytes s with
  | .error e => .error e
  | .ok raw_bytes =>
    if cfg.raw_format = ps "uint_be" ∨ cfg.raw_format = ps "uint_le" ∨
       cfg.raw_format = ps "int_be" ∨ cfg.raw_format = ps "int_le" then
      let signed := (ps "int_").isPrefixOf cfg.raw_format
      let ordered := if (ps "be").isSuffixOf cfg.raw_format then raw_bytes
                     else raw_bytes.reverse
      let u := fromBytesBE ordered
      let value : ℤ := if signed then toSigned u (8 * raw_bytes.length) else (u : ℤ)
      let value :=
        match cfg.start_bit, cfg.bit_length with
        | some sb, some bl => _apply_bit_slice value sb bl signed
        | _, _ => value
      .ok (.fin value)
    else if cfg.raw_format = ps "float_be" ∨ cfg.raw_format = ps "float_le" then
      let ordered := if (ps "be").isSuffixOf cfg.raw_format then raw_bytes
                     else raw_bytes.reverse
      if raw_bytes.length = 4 then .ok (decodeIEEE 8 23 (fromBytesBE ordered))
      else if raw_bytes.length = 8 then .ok (decodeIEEE 11 52 (fromBytesBE ordered))
      else .error .conversionError
    else .error .conversionError

/-- `SENTINEL_RAW_MIN = 2147483640.0`. -/
def sentinelRawMin : Flt := .fin 2147483640

/-- `convert_hex`: decode, then map the raw value to the engineering
value, with the sentinel/non-finite guard producing `(None, nan)`. -/
def convert_hex (s : PyStr) (cfg : ChannelConfig) : Except PyErr (Option Flt × Flt) :=
  match decode_raw_value s cfg with
  | .error e => .error e
  | .ok raw_value =>
    if !raw_value.isFinite || Flt.ble sentinelRawMin raw_value then
      .ok (none, .nan)
    else
      .ok (some raw_value, (raw_value.mul (.fin cfg.scale)).add (.fin cfg.offset))

/-! ### measurement.py -/

/-- `CONSTANT_LENGTH_MM = 1165.0`. -/
def constantLengthMm : Flt := .fin 1165

/-- `within_tol`: all three inputs finite and `|value - target| <= tol`. -/
def within_tol (value target tol : Flt) : Bool :=
  value.isFinite && target.isFinite && tol.isFinite &&
    Flt.ble (Flt.fabs (value.sub target)) tol

/-- `within_max_abs`: both inputs finite and `abs(value) <= max_value`. -/
def within_max_abs (value max_value : Flt) : Bool :=
  value.isFinite && max_value.isFinite && Flt.ble value.fabs max_value

/-- `within_max`: both inputs finite and `value <= max_value`. -/
def within_max (value max_value : Flt) : Bool :=
  value.isFinite && max_value.isFinite && Flt.ble value max_value

/-- `range_of_three`: `None` unless all three inputs are finite, else
`max(a,b,c) - min(a,b,c)`. -/
def range_of_three (a b c : Flt) : Option Flt :=
  match a, b, c with
  | .fin x, .fin y, .fin z => some (.fin (max x (max y z) - min x (min y z)))
  | _, _, _ => none

/-- The nine tolerance targets (`Targets` dataclass), in millimeters. -/
structure Targets where
  d1_target : Flt := .fin 0
  d1_tol : Flt := .fin (1 / 20)
  d2_target : Flt := .fin 0
  d2_tol : Flt := .fin (1 / 20)
  len_target : Flt := .fin 1165
  len_tol : Flt := .fin (1 / 5)
  dDelta_max : Flt := .fin (1 / 20)
  end1_max : Flt := .fin (1 / 20)
  end2_max : Flt := .fin (1 / 20)
deriving DecidableEq, Repr

/-- One sensor read outcome (the fields of `PortReadResult` the cycle
logic consumes). -/
structure PortResult where
  ok : Bool
  rawHex : Option PyStr
deriving DecidableEq, Repr

/-- Python truthiness of an `Optional[str]`: `None` and `""` are falsy. -/
def truthyStr : Option PyStr → Bool
  | some l => l ≠ []
  | none => false

/-- Per-channel conversion outcome inside one cycle: whether a
`ConversionError` was raised, the raw value, the engineering value. -/
structure ChanOutcome where
  errored : Bool
  raw : Option Flt
  mm : Flt
deriving DecidableEq, Repr

/-- One channel of the measurement cycle's conversion loop: convert when
the read succeeded and carried hex, catch `ConversionError`, leave the
value NaN otherwise. -/
def convertChannel (res : PortResult) (cfg : ChannelConfig) : ChanOutcome :=
  if res.ok && truthyStr res.rawHex then
    match convert_hex (res.rawHex.getD []) cfg with
    | .ok (r, mm) => ⟨false, r, mm⟩
    | .error _ => ⟨true, none, .nan⟩
  else ⟨false, none, .nan⟩

/-- Conjunction of a boolean predicate over the eight channels. -/
def all8 (p : Fin 8 → Bool) : Bool := (List.finRange 8).all p

/-- Everything one measurement cycle derives and publishes. -/
structure CycleOut where
  allOk : Bool
  mm : Fin 8 → Flt
  wo : Fin 8 → Flt
  d1 : Flt
  d2 : Flt
  dDelta : Flt
  end1Rng : Option Flt
  end2Rng : Option Flt
  length : Flt
  okD1 : Bool
  okD2 : Bool
  okDd : Bool
  okE1 : Bool
  okE2 : Bool
  okLen : Bool
  overall : Bool

/-- The decode/evaluate core of `MeasurementEngine._run` for one cycle:
eight read results, eight channel configs, eight offsets and the targets
produce the derived metrics, the six checks and the overall verdict. -/
def runCycle (results : Fin 8 → PortResult) (channels : Fin 8 → ChannelConfig)
    (offsets : Fin 8 → Flt) (tg : Targets) : CycleOut :=
  let ch := fun i => convertChannel (results i) (channels i)
  let allOk := all8 (fun i => (results i).ok) && all8 (fun i => !(ch i).errored)
  let mm := fun i => (ch i).mm
  let wo := fun i => if (mm i).isFinite then (mm i).add (offsets i) else Flt.nan
  let d1 := wo 0
  let d2 := wo 1
  let dDelta := if d1.isFinite && d2.isFinite then d1.sub d2 else Flt.nan
  let end1Rng := range_of_three (wo 2) (wo 3) (wo 4)
  let end2Rng := range_of_three (wo 5) (wo 6) (wo 7)
  let length :=
    if (wo 2).isFinite && (wo 5).isFinite then
      constantLengthMm.sub ((wo 2).add (wo 5))
    else Flt.nan
  let okD1 := within_tol d1 tg.d1_target tg.d1_tol
  let okD2 := within_tol d2 tg.d2_target tg.d2_tol
  let okDd := within_max_abs dDelta tg.dDelta_max
  let okE1 := within_max (end1Rng.getD Flt.nan) tg.end1_max
  let okE2 := within_max (end2Rng.getD Flt.nan) tg.end2_max
  let okLen := within_tol length tg.len_target tg.len_tol
  let overall := allOk && okD1 && okD2 && okDd && okE1 && okE2 && okLen
  ⟨allOk, mm, wo, d1, d2, dDelta, end1Rng, end2Rng, length,
   okD1, okD2, okDd, okE1, okE2, okLen, overall⟩

/-! ### config_store.py -/

/-- `MM_PER_IN = 25.4`. -/
def mmPerIn : Flt := .fin (127 / 5)

/-- `in_to_mm`. -/
def in_to_mm (value_in : Flt) : Flt := value_in.mul mmPerIn

/-- `mm_to_in`. -/
def mm_to_in (value_mm : Flt) : Flt :=
  match value_mm, mmPerIn with
  | .fin a, .fin b => .fin (a / b)
  | .nan, _ => .nan
  | .inf, .fin _ => .inf
  | .ninf, .fin _ => .ninf
  | v, _ => v

/-- The full configuration (`Config` dataclass). -/
structure Config where
  al1322_ip : PyStr := ps "192.168.100.1"
  poll_interval_s : Flt := .fin (1 / 2)
  request_timeout_s : Flt := .fin 1
  log_capacity : ℤ := 200
  hmi_serial_port : PyStr := ps "/dev/serial0"
  hmi_baud : ℤ := 115200
  targets : Targets := {}
  offsets_mm : List Flt := List.replicate 8 (.fin 0)
  channels : List ChannelConfig := List.replicate 8 {}
deriving DecidableEq, Repr

/-- A `ConfigStore`'s guarded state: the live config plus the monotonic
version counter. -/
structure StoreState where
  config : Config
  version : ℤ
deriving DecidableEq, Repr

/-- `setattr(self._config.targets, key, value)` guarded by
`hasattr`: update the named `Targets` field, or skip unknown names. -/
def setTargetField (tg : Targets) (key : PyStr) (v : Flt) : Targets :=
  if key = ps "d1_target" then { tg with d1_target := v }
  else if key = ps "d1_tol" then { tg with d1_tol := v }
  else if key = ps "d2_target" then { tg with d2_target := v }
  else if key = ps "d2_tol" then { tg with d2_tol := v }
  else if key = ps "len_target" then { tg with len_target := v }
  else if key = ps "len_tol" then { tg with len_tol := v }
  else if key = ps "dDelta_max" then { tg with dDelta_max := v }
  else if key = ps "end1_max" then { tg with end1_max := v }
  else if key = ps "end2_max" then { tg with end2_max := v }
  else tg

/-- `ConfigStore.replace_config`. -/
def replace_config (st : StoreState) (c : Config) : StoreState :=
  { config := c, version := st.version + 1 }

/-- `ConfigStore.update_targets_mm`: apply each recognized update, then
bump the version once. -/
def update_targets_mm (st : StoreState) (updates : List (PyStr × Flt)) : StoreState :=
  let tg := updates.foldl (fun tg kv => setTargetField tg kv.1 kv.2) st.config.targets
  { config := { st.config with targets := tg }, version := st.version + 1 }

/-- `ConfigStore.update_offsets_mm`: truncate to eight entries, pad with
`0.0`, bump the version. -/
def update_offsets_mm (st : StoreState) (offs : List Flt) : StoreState :=
  let l := offs.take 8
  let l := l ++ List.replicate (8 - l.length) (.fin 0)
  { config := { st.config with offsets_mm := l }, version := st.version + 1 }

/-- `ConfigStore.load`, with the on-disk parse result (or the default
config when the file is absent) abstracted as the argument. -/
def reload_config (st : StoreState) (parsed : Config) : StoreState :=
  { config := parsed, version := st.version + 1 }

/-- Assign a `Targets` field on the live config and bump the version
(one successful branch of `update_from_hmi_set`). -/
def bumpTargets (st : StoreState) (f : Targets → Targets) : StoreState :=
  { config := { st.config with targets := f st.config.targets },
    version := st.version + 1 }

/-- Assign `offsets_mm[idx]` on the live config and bump the version
(the successful `off<idx>` branch of `update_from_hmi_set`). -/
def bumpOffsetAt (st : StoreState) (idx : ℤ) (v : Flt) : StoreState :=
  { config := { st.config with offsets_mm := st.config.offsets_mm.set idx.toNat v },
    version := st.version + 1 }

/-- `ConfigStore.update_from_hmi_set`: map a symbolic HMI key plus an
inch value onto the internal millimeter field; `false` (and no mutation,
no version bump) for unrecognized keys. -/
def update_from_hmi_set (st : StoreState) (key : PyStr) (value_in : Flt) :
    Bool × StoreState :=
  if key = ps "d1t" then
    (true, bumpTargets st (fun t => { t with d1_target := in_to_mm value_in }))
  else if key = ps "d1tol" then
    (true, bumpTargets st (fun t => { t with d1_tol := in_to_mm value_in }))
  else if key = ps "d2t" then
    (true, bumpTargets st (fun t => { t with d2_target := in_to_mm value_in }))
  else if key = ps "d2tol" then
    (true, bumpTargets st (fun t => { t with d2_tol := in_to_mm value_in }))
  else if key = ps "lent" then
    (true, bumpTargets st (fun t => { t with len_target := in_to_mm value_in }))
  else if key = ps "lentol" then
    (true, bumpTargets st (fun t => { t with len_tol := in_to_mm value_in }))
  else if key = ps "ddelmax" then
    (true, bumpTargets st (fun t => { t with dDelta_max := in_to_mm value_in }))
  else if key = ps "e1max" then
    (true, bumpTargets st (fun t => { t with end1_max := in_to_mm value_in }))
  else if key = ps "e2max" then
    (true, bumpTargets st (fun t => { t with end2_max := in_to_mm value_in }))
  else if (ps "off").isPrefixOf key then
    match pyInt (key.drop 3) with
    | none => (false, st)
    | some idx =>
      if 0 ≤ idx ∧ idx < 8 then (true, bumpOffsetAt st idx (in_to_mm value_in))
      else (false, st)
  else (false, st)

/-! ### hmi.py -/

/-- The frame assembler's state inside `HMIHandler._read_loop`: the byte
accumulator, the consecutive-`0xFF` counter, and (for the model) the
frames dispatched to `_process_frame` so far. -/
structure RxState where
  buf : List ℕ
  ffCount : ℕ
  frames : List (List ℕ)
deriving DecidableEq, Repr

/-- The assembler before any byte arrives. -/
def rxInit : RxState := ⟨[], 0, []⟩

/-- One byte through the frame assembler: `0xFF` bumps the terminator
counter and dispatches on the third consecutive one; any other byte
resets the counter and is appended unless the 256-byte cap is reached,
in which case it is dropped. -/
def rxByte (s : RxState) (b : ℕ) : RxState :=
  if b = 0xFF then
    let c := s.ffCount + 1
    if 3 ≤ c then ⟨[], 0, s.frames ++ [s.buf]⟩
    else ⟨s.buf, c, s.frames⟩
  else if s.buf.length < 256 then ⟨s.buf ++ [b], 0, s.frames⟩
  else ⟨s.buf, 0, s.frames⟩

/-- Feed a byte sequence through the frame assembler. -/
def rxBytes (s : RxState) (l : List ℕ) : RxState := l.foldl rxByte s

/-- `HMIHandler._handle_line` restricted to its effect on the config
store (logging and serial output are not modelled): parse the command
line and apply the symbolic SET when it is well-formed. -/
def handleLine (st : StoreState) (line : PyStr) : StoreState :=
  if line = [] then st
  else
    match pySplitWs line with
    | [] => st
    | [_] => st
    | p0 :: p1 :: restk =>
      let cmd := pyUpper p0
      if cmd = ps "SET" then
        let kv : Option (PyStr × PyStr) :=
          if restk = [] then
            let payload := pyStrip (line.drop p0.length)
            if pyContains payload '=' then some (pySplitOnce '=' payload)
            else if pyContains payload ':' then some (pySplitOnce ':' payload)
            else if pyContains payload ',' then some (pySplitOnce ',' payload)
            else none
          else some (p1, restk.headD [])
        match kv with
        | none => st
        | some (k, v) =>
          let key := pyLower (pyStrip k)
          let valTok := pyStrip v
          match pyFloat valTok with
          | none => st
          | some value_in => (update_from_hmi_set st key value_in).2
      else st

/-! ### al1322_client.py -/

/-- Structured response payloads (the values `json.loads` can produce). -/
inductive PyVal where
  | str (s : PyStr)
  | num (q : ℚ)
  | bool (b : Bool)
  | null
  | arr (xs : List PyVal)
  | obj (kvs : List (PyStr × PyVal))

/-- `HEX_VALUE_RE.match`: same pattern as `HEX_RE`. -/
def hexValueMatch (l : PyStr) : Bool := hexReMatch l

/-- Lookup of a key in a JSON object (`key in payload` / `payload[key]`;
object keys are unique in a parsed JSON payload). -/
def objLookup (kvs : List (PyStr × PyVal)) (key : PyStr) : Option PyVal :=
  (kvs.find? (fun kv => kv.1 = key)).map Prod.snd

/-- The key-priority pass of `AL1322Client._extract_hex`: try each
recognized key in the given order for a string value that strips to a
hex-looking string. -/
def keySearch (keys : List PyStr) (kvs : List (PyStr × PyVal)) : Option PyStr :=
  match keys with
  | [] => none
  | k :: rest =>
    match objLookup kvs k with
    | some (.str s) =>
      let value := pyStrip s
      if hexValueMatch value then some value else keySearch rest kvs
    | _ => keySearch rest kvs

/-- The recognized-key tuple of `_extract_hex`, in source order:
`("data", "value", "pDIN", "pdin", "hex")`. -/
def extractKeys : List PyStr :=
  [ps "data", ps "value", ps "pDIN", ps "pdin", ps "hex"]

mutual

/-- `AL1322Client._extract_hex`: strings are stripped and matched; an
object is searched by recognized key first, then all its values are
scanned recursively; a list is scanned element-wise; anything else
yields `None`. -/
def extractHex : PyVal → Option PyStr
  | .str s =>
    let value := pyStrip s
    if hexValueMatch value then some value else none
  | .obj kvs =>
    (match keySearch extractKeys kvs with
     | some v => some v
     | none => extractHexKVs kvs)
  | .arr xs => extractHexList xs
  | _ => none

/-- Recursive scan over an object's values, in order. -/
def extractHexKVs : List (PyStr × PyVal) → Option PyStr
  | [] => none
  | (_, v) :: rest =>
    match extractHex v with
    | some found => some found
    | none => extractHexKVs rest

/-- Recursive scan over a list's elements, in order. -/
def extractHexList : List PyVal → Option PyStr
  | [] => none
  | x :: rest =>
    match extractHex x with
    | some found => some found
    | none => extractHexList rest

end

/-! ### MeasurementEngine._run scheduling -/

/-- What one iteration of the measurement loop's outer `while` does
before any cycle work. -/
inductive LoopAction where
  | sleepSeconds (dt : ℚ)
  | runCycleNow
deriving DecidableEq, Repr

/-- The scheduling skeleton of `MeasurementEngine._run`: with `now` the
current monotonic time and `nextTick` the scheduled tick, either sleep
`0.01 s` (when ahead of schedule, leaving the tick unchanged) or run the
cycle and schedule the next tick as `now + poll_interval`. -/
def loopIter (now nextTick pollInterval : ℚ) : LoopAction × ℚ :=
  if now < nextTick then (.sleepSeconds (1 / 100), nextTick)
  else (.runCycleNow, now + pollInterval)

/-! ## Helper lemmas -/

theorem all8_eq_true_iff (p : Fin 8 → Bool) : all8 p = true ↔ ∀ i, p i = true := by
  simp only [all8, List.all_eq_true]
  exact ⟨fun h i => h i (List.mem_finRange i), fun h i _ => h i⟩

theorem within_tol_finite {v t tol : Flt} (h : within_tol v t tol = true) :
    v.isFinite = true := by
  simp only [within_tol, Bool.and_eq_true] at h
  exact h.1.1.1

theorem within_max_finite {v m : Flt} (h : within_max v m = true) :
    v.isFinite = true := by
  simp only [within_max, Bool.and_eq_true] at h
  exact h.1.1

theorem range_of_three_eq_some_finite {a b c f : Flt}
    (h : range_of_three a b c = some f) :
    a.isFinite = true ∧ b.isFinite = true ∧ c.isFinite = true := by
  cases a <;> cases b <;> cases c <;> simp_all [range_of_three, Flt.isFinite]

theorem convertChannel_errored_mm {res : PortResult} {cfg : ChannelConfig}
    (h : (convertChannel res cfg).errored = true) :
    (convertChannel res cfg).mm = .nan := by
  by_cases hc : (res.ok && truthyStr res.rawHex) = true
  · cases hcv : convert_hex (res.rawHex.getD []) cfg with
    | error e => simp [convertChannel, hc, hcv]
    | ok pr =>
      rcases pr with ⟨r, mm⟩
      simp [convertChannel, hc, hcv] at h
  · simp [convertChannel, hc] at h

theorem nan_not_finite : Flt.nan.isFinite = false := rfl

theorem within_max_range_finite {a b c m : Flt}
    (h : within_max ((range_of_three a b c).getD Flt.nan) m = true) :
    a.isFinite = true ∧ b.isFinite = true ∧ c.isFinite = true := by
  have hf := within_max_finite h
  cases hr : range_of_three a b c with
  | none => rw [hr] at hf; simp [nan_not_finite] at hf
  | some f => exact range_of_three_eq_some_finite hr

/-! ## Claim C1 -/

/-- **C1.** In every measurement cycle, the published `overall_pass` is
true iff all eight channel reads returned ok and all six derived checks
(d1, d2, delta, end1_range, end2_range, length) evaluate true under that
cycle's config targets; any failed read or false check forces
`overall_pass = false`.  (The backward direction holds because a
conversion error leaves the channel NaN, which falsifies the check that
consumes it, so six true checks already rule out conversion errors.) -/
theorem overall_pass_iff_c1 (r : Fin 8 → PortResult) (c : Fin 8 → ChannelConfig)
    (o : Fin 8 → Flt) (tg : Targets) :
    (runCycle r c o tg).overall = true ↔
      ((∀ i, (r i).ok = true) ∧
       (runCycle r c o tg).okD1 = true ∧ (runCycle r c o tg).okD2 = true ∧
       (runCycle r c o tg).okDd = true ∧ (runCycle r c o tg).okE1 = true ∧
       (runCycle r c o tg).okE2 = true ∧ (runCycle r c o tg).okLen = true) := by
  have hov : (runCycle r c o tg).overall =
      ((runCycle r c o tg).allOk && (runCycle r c o tg).okD1 &&
       (runCycle r c o tg).okD2 && (runCycle r c o tg).okDd &&
       (runCycle r c o tg).okE1 && (runCycle r c o tg).okE2 &&
       (runCycle r c o tg).okLen) := rfl
  have hallOk : (runCycle r c o tg).allOk =
      (all8 (fun i => (r i).ok) &&
       all8 (fun i => !(convertChannel (r i) (c i)).errored)) := rfl
  constructor
  · intro h
    rw [hov] at h
    simp only [Bool.and_eq_true] at h
    obtain ⟨⟨⟨⟨⟨⟨hA, h1⟩, h2⟩, hd⟩, he1⟩, he2⟩, hl⟩ := h
    rw [hallOk] at hA
    simp only [Bool.and_eq_true] at hA
    exact ⟨fun i => (all8_eq_true_iff _).mp hA.1 i, h1, h2, hd, he1, he2, hl⟩
  · rintro ⟨hok, h1, h2, hd, he1, he2, hl⟩
    rw [hov]
    simp only [Bool.and_eq_true]
    refine ⟨⟨⟨⟨⟨⟨?_, h1⟩, h2⟩, hd⟩, he1⟩, he2⟩, hl⟩
    rw [hallOk]
    simp only [Bool.and_eq_true]
    refine ⟨(all8_eq_true_iff _).mpr hok, (all8_eq_true_iff _).mpr ?_⟩
    intro i
    by_contra hni
    have herr : (convertChannel (r i) (c i)).errored = true := by
      revert hni; cases (convertChannel (r i) (c i)).errored <;> simp
    have hmm : (convertChannel (r i) (c i)).mm = .nan := convertChannel_errored_mm herr
    have hwo : (runCycle r c o tg).wo i = Flt.nan := by
      have e : (runCycle r c o tg).wo i =
          (if ((convertChannel (r i) (c i)).mm).isFinite
           then ((convertChannel (r i) (c i)).mm).add (o i) else Flt.nan) := rfl
      rw [e, hmm]
      rfl
    have h1' : within_tol ((runCycle r c o tg).wo 0) tg.d1_target tg.d1_tol = true := h1
    have h2' : within_tol ((runCycle r c o tg).wo 1) tg.d2_target tg.d2_tol = true := h2
    have he1' : within_max ((range_of_three ((runCycle r c o tg).wo 2)
        ((runCycle r c o tg).wo 3) ((runCycle r c o tg).wo 4)).getD Flt.nan)
        tg.end1_max = true := he1
    have he2' : within_max ((range_of_three ((runCycle r c o tg).wo 5)
        ((runCycle r c o tg).wo 6) ((runCycle r c o tg).wo 7)).getD Flt.nan)
        tg.end2_max = true := he2
    have hfin : ((runCycle r c o tg).wo i).isFinite = true := by
      fin_cases i
      · exact within_tol_finite h1'
      · exact within_tol_finite h2'
      · exact (within_max_range_finite he1').1
      · exact (within_max_range_finite he1').2.1
      · exact (within_max_range_finite he1').2.2
      · exact (within_max_range_finite he2').1
      · exact (within_max_range_finite he2').2.1
      · exact (within_max_range_finite he2').2.2
    rw [hwo] at hfin
    simp [nan_not_finite] at hfin

/-! ## Claim C3 -/

/-- **C3.** The tolerance predicates are total boolean functions:
`within_tol v t tol` is true iff `v`, `t`, `tol` are all finite and
`|v − t| ≤ tol`; `within_max_abs` and `within_max` likewise require
finiteness; any NaN argument yields a definite false; and the spec's
concrete examples `within_tol(5.0,5.0,0.05) = true`,
`within_tol(5.06,5.0,0.05) = false` hold. -/
theorem tolerance_predicates_c3 :
    (∀ v t tol : Flt, within_tol v t tol = true ↔
      (v.isFinite = true ∧ t.isFinite = true ∧ tol.isFinite = true ∧
       |v.toQ - t.toQ| ≤ tol.toQ)) ∧
    (∀ v m : Flt, within_max_abs v m = true ↔
      (v.isFinite = true ∧ m.isFinite = true ∧ |v.toQ| ≤ m.toQ)) ∧
    (∀ v m : Flt, within_max v m = true ↔
      (v.isFinite = true ∧ m.isFinite = true ∧ v.toQ ≤ m.toQ)) ∧
    within_tol (.fin 5) (.fin 5) (.fin (1 / 20)) = true ∧
    within_tol (.fin (253 / 50)) (.fin 5) (.fin (1 / 20)) = false ∧
    (∀ t tol, within_tol .nan t tol = false) ∧
    (∀ v tol, within_tol v .nan tol = false) ∧
    (∀ v t, within_tol v t .nan = false) ∧
    (∀ m, within_max_abs .nan m = false) ∧
    (∀ v, within_max_abs v .nan = false) ∧
    (∀ m, within_max .nan m = false) ∧
    (∀ v, within_max v .nan = false) := by
  refine ⟨?_, ?_, ?_,
    by simp only [within_tol, Flt.sub, Flt.add, Flt.neg, Flt.fabs, Flt.ble,
          Flt.isFinite, Bool.and_eq_true, decide_eq_true_iff]
       norm_num,
    by simp only [within_tol, Flt.sub, Flt.add, Flt.neg, Flt.fabs, Flt.ble,
          Flt.isFinite, Bool.and_eq_false_iff, decide_eq_false_iff_not,
          Bool.true_and]
       norm_num
       rw [abs_of_nonneg (by norm_num : (0 : ℚ) ≤ 3 / 50)]
       norm_num,
    ?_, ?_, ?_, ?_, ?_, ?_, ?_⟩
  · intro v t tol
    cases v <;> cases t <;> cases tol <;>
      simp [within_tol, Flt.isFinite, Flt.sub, Flt.add, Flt.neg, Flt.fabs,
            Flt.ble, Flt.toQ, sub_eq_add_neg]
  · intro v m
    cases v <;> cases m <;>
      simp [within_max_abs, Flt.isFinite, Flt.fabs, Flt.ble, Flt.toQ]
  · intro v m
    cases v <;> cases m <;>
      simp [within_max, Flt.isFinite, Flt.ble, Flt.toQ]
  · intro t tol; rfl
  · intro v tol
    cases v <;> cases tol <;> simp [within_tol, Flt.isFinite]
  · intro v t
    cases v <;> cases t <;> simp [within_tol, Flt.isFinite]
  · intro m; rfl
  · intro v
    cases v <;> simp [within_max_abs, Flt.isFinite]
  · intro m; rfl
  · intro v
    cases v <;> simp [within_max, Flt.isFinite]

/-! ## Claim C5 -/

/-- **C5.** Feeding the ASCII bytes of `"SET d1t 10.0"` followed by three
`0xFF` bytes into the frame assembler (from an empty accumulator, zero
terminator count) dispatches exactly that one frame and leaves the
accumulator empty and the counter at zero; and every non-`0xFF` byte
resets the consecutive-terminator counter to 0 and is appended unless
the accumulator holds 256 bytes, in which case it is dropped. -/
theorem frame_assembler_c5 :
    (rxBytes rxInit ((ps "SET d1t 10.0").map Char.toNat ++ [0xFF, 0xFF, 0xFF]) =
      ⟨[], 0, [(ps "SET d1t 10.0").map Char.toNat]⟩) ∧
    (∀ (s : RxState) (b : ℕ), b ≠ 0xFF →
      (rxByte s b).ffCount = 0 ∧ (rxByte s b).frames = s.frames ∧
      (rxByte s b).buf = (if s.buf.length < 256 then s.buf ++ [b] else s.buf)) := by
  refine ⟨by decide, ?_⟩
  intro s b hb
  simp only [rxByte, if_neg hb]
  split <;> simp

/-- Witness for C5's general clause at byte `0x41` from the initial
state. -/
theorem frame_assembler_c5_witness :
    (0x41 : ℕ) ≠ 0xFF ∧
    ((rxByte rxInit 0x41).ffCount = 0 ∧ (rxByte rxInit 0x41).frames = rxInit.frames ∧
     (rxByte rxInit 0x41).buf =
       (if rxInit.buf.length < 256 then rxInit.buf ++ [0x41] else rxInit.buf)) :=
  ⟨by decide, frame_assembler_c5.2 rxInit 0x41 (by decide)⟩

/-! ## Claim C10 -/

/-- Counterexample to C10 as stated: in the iteration starting at
monotonic time `10.3` with scheduled tick `10` and poll interval `0.5`,
the loop runs the cycle and schedules the next tick at `10.8`, not at
`10 + 0.5 = 10.5` as accumulation from the previous scheduled tick would
give. -/
theorem next_tick_cex_c10 :
    ¬((103 : ℚ) / 10 < 10) ∧
    (loopIter (103 / 10) 10 (1 / 2)).1 = .runCycleNow ∧
    (loopIter (103 / 10) 10 (1 / 2)).2 ≠ 10 + 1 / 2 := by
  have hlt : ¬((103 : ℚ) / 10 < 10) := by norm_num
  refine ⟨hlt, ?_, ?_⟩
  · simp [loopIter, if_neg hlt]
  · simp only [loopIter, if_neg hlt]
    norm_num

/-- **C10 (amended).** In every measurement-loop iteration that runs a
cycle, the next scheduled tick is `now + poll_interval` where `now` is
the time the cycle started — so a late cycle shifts the schedule rather
than catching up — and when ahead of schedule the loop sleeps in short
bounded increments of `0.01 s`, leaving the tick unchanged. -/
theorem next_tick_schedule_c10 (now nextTick p : ℚ) :
    (now < nextTick → loopIter now nextTick p = (.sleepSeconds (1 / 100), nextTick)) ∧
    (¬now < nextTick → loopIter now nextTick p = (.runCycleNow, now + p)) := by
  constructor <;> intro h <;> simp [loopIter, h]

/-- Witness for C10's amended theorem: one ahead-of-schedule iteration
and one late iteration at concrete times. -/
theorem next_tick_schedule_c10_witness :
    ((1 : ℚ) < 2 ∧ loopIter 1 2 (1 / 2) = (.sleepSeconds (1 / 100), 2)) ∧
    (¬((103 : ℚ) / 10 < 10) ∧
     loopIter (103 / 10) 10 (1 / 2) = (.runCycleNow, 103 / 10 + 1 / 2)) :=
  ⟨⟨by norm_num, (next_tick_schedule_c10 1 2 (1 / 2)).1 (by norm_num)⟩,
   ⟨by norm_num, (next_tick_schedule_c10 (103 / 10) 10 (1 / 2)).2 (by norm_num)⟩⟩

/-! ## Claim C6 -/

/-- **C6.** Processing `"SET off3=1.0"` and `"SET off3 1.0"` produces
the same configuration mutation: both set `offsets_mm[3]` to
`25.4 = 1.0 * 25.4` millimeters (and bump the version once). -/
theorem hmi_set_forms_agree_c6 (st : StoreState) :
    handleLine st (ps "SET off3=1.0") = handleLine st (ps "SET off3 1.0") ∧
    (handleLine st (ps "SET off3=1.0")).config.offsets_mm =
      st.config.offsets_mm.set 3 (.fin (127 / 5)) ∧
    (handleLine st (ps "SET off3=1.0")).version = st.version + 1 := by
  refine ⟨?_, ?_, ?_⟩ <;> with_unfolding_all rfl

/-! ## Claim C7 -/

/-- The fixed symbolic table the spec describes for C7: nine
target/tolerance keys plus `off0`..`off7`. -/
def specSymbolicTableC7 : List PyStr :=
  [ps "d1t", ps "d1tol", ps "d2t", ps "d2tol", ps "lent", ps "lentol",
   ps "ddelmax", ps "e1max", ps "e2max",
   ps "off0", ps "off1", ps "off2", ps "off3", ps "off4", ps "off5",
   ps "off6", ps "off7"]

/-- Counterexample to C7 as stated: the key `"off03"` is not in the
fixed symbolic table, yet the update returns `true` and mutates the
store (Python `int("03")` parses to `3`), so "false and no mutation for
every key outside the table" fails. -/
theorem hmi_set_unknown_key_cex_c7 :
    (ps "off03") ∉ specSymbolicTableC7 ∧
    (update_from_hmi_set ⟨{}, 0⟩ (ps "off03") (.fin 1)).1 = true ∧
    (update_from_hmi_set ⟨{}, 0⟩ (ps "off03") (.fin 1)).2 ≠ ⟨{}, 0⟩ := by
  refine ⟨by decide, by with_unfolding_all rfl, ?_⟩
  intro h
  have hv : (update_from_hmi_set ⟨{}, 0⟩ (ps "off03") (.fin 1)).2.version = 1 := by
    with_unfolding_all rfl
  rw [h] at hv
  exact absurd hv (by norm_num)

/-- The exact key set `update_from_hmi_set` recognizes: the nine
symbolic target keys, or an `off` prefix whose remainder parses as a
Python int in `[0, 8)`. -/
def hmiSetRecognized (key : PyStr) : Bool :=
  key = ps "d1t" || key = ps "d1tol" || key = ps "d2t" || key = ps "d2tol" ||
  key = ps "lent" || key = ps "lentol" || key = ps "ddelmax" ||
  key = ps "e1max" || key = ps "e2max" ||
  ((ps "off").isPrefixOf key &&
    (match pyInt (key.drop 3) with
     | some idx => decide (0 ≤ idx ∧ idx < 8)
     | none => false))

/-- **C7 (amended).** For every key that is neither one of the nine
target/tolerance keys nor an `"off"`-prefixed key whose remainder parses
as a Python integer in `[0, 8)`, and every value, the symbolic-set
update returns `false` and leaves the entire store state — configuration
and version counter — unchanged. -/
theorem hmi_set_unknown_key_noop_c7 (st : StoreState) (key : PyStr) (v : Flt)
    (h : hmiSetRecognized key = false) :
    update_from_hmi_set st key v = (false, st) := by
  simp only [hmiSetRecognized, Bool.or_eq_false_iff, Bool.and_eq_false_iff,
    decide_eq_false_iff_not] at h
  obtain ⟨⟨⟨⟨⟨⟨⟨⟨⟨h1, h2⟩, h3⟩, h4⟩, h5⟩, h6⟩, h7⟩, h8⟩, h9⟩, hoff⟩ := h
  unfold update_from_hmi_set
  rw [if_neg h1, if_neg h2, if_neg h3, if_neg h4, if_neg h5, if_neg h6,
      if_neg h7, if_neg h8, if_neg h9]
  by_cases hp : (ps "off").isPrefixOf key
  · rw [if_pos hp]
    rcases hoff with hfalse | hm
    · rw [hp] at hfalse
      exact Bool.noConfusion hfalse
    · cases hpi : pyInt (key.drop 3) with
      | none => rfl
      | some idx =>
        rw [hpi] at hm
        simp only [decide_eq_false_iff_not] at hm
        exact if_neg hm
  · rw [if_neg (by simpa using hp)]

/-- Witness for C7's amended theorem at the unrecognized key `"bogus"`. -/
theorem hmi_set_unknown_key_noop_c7_witness :
    hmiSetRecognized (ps "bogus") = false ∧
    update_from_hmi_set ⟨{}, 0⟩ (ps "bogus") (.fin 1) = (false, ⟨{}, 0⟩) :=
  ⟨by decide, hmi_set_unknown_key_noop_c7 ⟨{}, 0⟩ (ps "bogus") (.fin 1) (by decide)⟩

/-! ## Claim C8 -/

/-- The configuration-store mutation operations of `ConfigStore`, with
their inputs (the reload's on-disk parse abstracted as a `Config`). -/
inductive StoreOp where
  | replace (c : Config)
  | updateTargets (upds : List (PyStr × Flt))
  | updateOffsets (offs : List Flt)
  | hmiSet (key : PyStr) (v : Flt)
  | reload (parsed : Config)

/-- Apply one store operation. -/
def storeStep (st : StoreState) (op : StoreOp) : StoreState :=
  match op with
  | .replace c => replace_config st c
  | .updateTargets u => update_targets_mm st u
  | .updateOffsets o => update_offsets_mm st o
  | .hmiSet k v => (update_from_hmi_set st k v).2
  | .reload c => reload_config st c

theorem update_from_hmi_set_cases (st : StoreState) (k : PyStr) (v : Flt) :
    update_from_hmi_set st k v = (false, st) ∨
      (update_from_hmi_set st k v).2.version = st.version + 1 := by
  unfold update_from_hmi_set
  by_cases h1 : k = ps "d1t"
  · right; rw [if_pos h1]; rfl
  rw [if_neg h1]
  by_cases h2 : k = ps "d1tol"
  · right; rw [if_pos h2]; rfl
  rw [if_neg h2]
  by_cases h3 : k = ps "d2t"
  · right; rw [if_pos h3]; rfl
  rw [if_neg h3]
  by_cases h4 : k = ps "d2tol"
  · right; rw [if_pos h4]; rfl
  rw [if_neg h4]
  by_cases h5 : k = ps "lent"
  · right; rw [if_pos h5]; rfl
  rw [if_neg h5]
  by_cases h6 : k = ps "lentol"
  · right; rw [if_pos h6]; rfl
  rw [if_neg h6]
  by_cases h7 : k = ps "ddelmax"
  · right; rw [if_pos h7]; rfl
  rw [if_neg h7]
  by_cases h8 : k = ps "e1max"
  · right; rw [if_pos h8]; rfl
  rw [if_neg h8]
  by_cases h9 : k = ps "e2max"
  · right; rw [if_pos h9]; rfl
  rw [if_neg h9]
  by_cases hp : (ps "off").isPrefixOf k = true
  · rw [if_pos hp]
    cases hpi : pyInt (k.drop 3) with
    | none => left; rfl
    | some idx =>
      by_cases hi : 0 ≤ idx ∧ idx < 8
      · right
        show (if 0 ≤ idx ∧ idx < 8 then (true, bumpOffsetAt st idx (in_to_mm v))
              else (false, st)).2.version = st.version + 1
        rw [if_pos hi]
        rfl
      · left
        show (if 0 ≤ idx ∧ idx < 8 then (true, bumpOffsetAt st idx (in_to_mm v))
              else (false, st)) = (false, st)
        rw [if_neg hi]
  · rw [if_neg (by simpa using hp)]
    left; rfl

theorem storeStep_version_le (st : StoreState) (op : StoreOp) :
    st.version ≤ (storeStep st op).version := by
  cases op with
  | replace c => simp [storeStep, replace_config]
  | updateTargets u => simp [storeStep, update_targets_mm]
  | updateOffsets o => simp [storeStep, update_offsets_mm]
  | reload c => simp [storeStep, reload_config]
  | hmiSet k v =>
    rcases update_from_hmi_set_cases st k v with h | h
    · simp [storeStep, h]
    · simp [storeStep, h]

/-- **C8.** Every configuration mutation (replace, target update,
offsets update, successful symbolic set, reload) increases the monotonic
version counter by exactly one (hence by at least one), and under any
sequence of store operations the version never decreases. -/
theorem config_version_monotonic_c8 (st : StoreState) :
    (∀ c, (storeStep st (.replace c)).version = st.version + 1) ∧
    (∀ u, (storeStep st (.updateTargets u)).version = st.version + 1) ∧
    (∀ o, (storeStep st (.updateOffsets o)).version = st.version + 1) ∧
    (∀ c, (storeStep st (.reload c)).version = st.version + 1) ∧
    (∀ k v, (update_from_hmi_set st k v).1 = true →
      (storeStep st (.hmiSet k v)).version = st.version + 1) ∧
    (∀ ops : List StoreOp, st.version ≤ (ops.foldl storeStep st).version) := by
  refine ⟨fun c => rfl, fun u => rfl, fun o => rfl, fun c => rfl, ?_, ?_⟩
  · intro k v h
    rcases update_from_hmi_set_cases st k v with hc | hc
    · rw [hc] at h
      exact absurd h (by simp)
    · exact hc
  · intro ops
    induction ops generalizing st with
    | nil => exact le_refl _
    | cons op rest ih =>
      exact le_trans (storeStep_version_le st op) (ih _)

/-- Witness for C8's successful-symbolic-set clause at the key `"d1t"`
from a concrete store. -/
theorem config_version_monotonic_c8_witness :
    (update_from_hmi_set ⟨{}, 0⟩ (ps "d1t") (.fin 1)).1 = true ∧
    (storeStep ⟨{}, 0⟩ (.hmiSet (ps "d1t") (.fin 1))).version = (0 : ℤ) + 1 :=
  ⟨by with_unfolding_all rfl,
   (config_version_monotonic_c8 ⟨{}, 0⟩).2.2.2.2.1 (ps "d1t") (.fin 1)
     (by with_unfolding_all rfl)⟩

/-! ## Claim C2 -/

/-- **C2.** For every hex payload and channel config, `convert_hex`
returns `(absent, NaN)` whenever the decoded raw value is non-finite or
`≥ 2147483640.0`, regardless of the configured scale and offset (the
same raw value decodes under any scale/offset since decoding never reads
them); otherwise it returns `(raw_value, raw_value*scale + offset)`. -/
theorem convert_sentinel_c2 (s : PyStr) (cfg : ChannelConfig) (r : Flt)
    (h : decode_raw_value s cfg = .ok r) (sc off : ℚ) :
    decode_raw_value s { cfg with scale := sc, offset := off } = .ok r ∧
    convert_hex s { cfg with scale := sc, offset := off } =
      .ok (if !r.isFinite || Flt.ble sentinelRawMin r then (none, Flt.nan)
           else (some r, (r.mul (.fin sc)).add (.fin off))) := by
  have h' : decode_raw_value s { cfg with scale := sc, offset := off } = .ok r := h
  refine ⟨h', ?_⟩
  unfold convert_hex
  rw [h']
  cases hg : (!r.isFinite || Flt.ble sentinelRawMin r) <;> simp [hg]

/-- Witness for C2 at the sentinel payload `"7FFFFFF8"` (which decodes
to exactly `2147483640`) under scale `2` and offset `7`. -/
theorem convert_sentinel_c2_witness :
    decode_raw_value (ps "7FFFFFF8") {} = .ok (.fin 2147483640) ∧
    convert_hex (ps "7FFFFFF8") { ({} : ChannelConfig) with scale := 2, offset := 7 } =
      .ok (none, Flt.nan) := by
  have hdec : decode_raw_value (ps "7FFFFFF8") {} = .ok (.fin 2147483640) := by
    with_unfolding_all rfl
  refine ⟨hdec, ?_⟩
  have h := (convert_sentinel_c2 (ps "7FFFFFF8") {} (.fin 2147483640) hdec 2 7).2
  rw [h]
  have : (!(Flt.fin 2147483640).isFinite ||
      Flt.ble sentinelRawMin (.fin 2147483640)) = true := by
    with_unfolding_all rfl
  rw [this]
  rfl

/-! ## Claim C9 -/

/-- The recognized-key order C9 claims: `"pdin"` before `"pDIN"`. -/
def specClaimKeyOrderC9 : List PyStr :=
  [ps "data", ps "value", ps "pdin", ps "pDIN", ps "hex"]

/-- Counterexample to C9 as stated: on a payload carrying both a
`"pdin"` and a `"pDIN"` hex string, searching in the claim's key order
yields the `"pdin"` value `"0A"`, but the code (which tries `"pDIN"`
before `"pdin"`) returns `"0B"`. -/
theorem extract_hex_order_cex_c9 :
    keySearch specClaimKeyOrderC9
        [(ps "pdin", .str (ps "0A")), (ps "pDIN", .str (ps "0B"))] =
      some (ps "0A") ∧
    extractHex (.obj [(ps "pdin", .str (ps "0A")), (ps "pDIN", .str (ps "0B"))]) =
      some (ps "0B") ∧
    some (ps "0A") ≠ some (ps "0B") := by
  refine ⟨rfl, rfl, by decide⟩

/-- Recursive-scan characterization: each scan loop returns the first
element whose recursive extraction finds a hex-looking string. -/
theorem extractHexList_eq_findSome (xs : List PyVal) :
    extractHexList xs = xs.findSome? extractHex := by
  induction xs with
  | nil => rfl
  | cons x rest ih =>
    rw [extractHexList, List.findSome?]
    cases extractHex x <;> simp [ih]

theorem extractHexKVs_eq_findSome (kvs : List (PyStr × PyVal)) :
    extractHexKVs kvs = (kvs.map Prod.snd).findSome? extractHex := by
  induction kvs with
  | nil => rfl
  | cons kv rest ih =>
    rcases kv with ⟨k, v⟩
    rw [extractHexKVs, List.map, List.findSome?]
    cases extractHex v <;> simp [ih]

/-- A payload wrapped in `n` levels of single-element arrays: nesting of
arbitrary depth, used to show the recursive scan has no depth bound. -/
def nestArr : ℕ → PyVal → PyVal
  | 0, v => v
  | n + 1, v => .arr [nestArr n v]

theorem extractHexList_singleton (x : PyVal) :
    extractHexList [x] = extractHex x := by
  rw [extractHexList]
  cases extractHex x <;> simp [extractHexList]

/-- **C9 (amended).** For every structured response payload, the hex
extraction searches the recognized keys `"data"`, `"value"`, `"pDIN"`,
`"pdin"`, `"hex"` in that order (case-sensitive, exact names) for a
hex-looking string; only if none matches does it recursively scan all
the object's values in order — and over arrays it scans all elements in
order — returning the first hex-looking string found.  The recursion
carries no fixed depth bound: wrapping a payload in arbitrarily many
nesting levels never changes the result, i.e. the scan descends to
every depth the payload has. -/
theorem extract_hex_search_c9 :
    (∀ kvs v, keySearch extractKeys kvs = some v →
      extractHex (.obj kvs) = some v) ∧
    (∀ kvs, keySearch extractKeys kvs = none →
      extractHex (.obj kvs) = (kvs.map Prod.snd).findSome? extractHex) ∧
    (∀ xs, extractHex (.arr xs) = xs.findSome? extractHex) ∧
    extractKeys = [ps "data", ps "value", ps "pDIN", ps "pdin", ps "hex"] ∧
    (∀ (n : ℕ) (v : PyVal), extractHex (nestArr n v) = extractHex v) := by
  refine ⟨?_, ?_, ?_, rfl, ?_⟩
  · intro kvs v h
    rw [extractHex, h]
  · intro kvs h
    rw [extractHex, h, extractHexKVs_eq_findSome]
  · intro xs
    rw [extractHex, extractHexList_eq_findSome]
  · intro n
    induction n with
    | zero => intro v; rfl
    | succ m ih =>
      intro v
      rw [nestArr, extractHex, extractHexList_singleton, ih]

/-- Witness for C9's amended theorem: a key hit on `"pDIN"`, a key miss
falling through to the recursive value scan, an array scan, and a scan
reaching a hex string buried under five nesting levels. -/
theorem extract_hex_search_c9_witness :
    extractHex (.obj [(ps "pdin", .str (ps "0A")), (ps "pDIN", .str (ps "0B"))]) =
      some (ps "0B") ∧
    extractHex (.obj [(ps "foo", .arr [.num 3, .str (ps "00FF12")])]) =
      some (ps "00FF12") ∧
    extractHex (.arr [.null, .str (ps "0C")]) =
      [PyVal.null, .str (ps "0C")].findSome? extractHex ∧
    extractHex (nestArr 5 (.str (ps "0A"))) = some (ps "0A") := by
  refine ⟨?_, ?_, ?_, ?_⟩
  · exact (extract_hex_search_c9.1
      [(ps "pdin", .str (ps "0A")), (ps "pDIN", .str (ps "0B"))] (ps "0B") rfl)
  · have h := (extract_hex_search_c9.2.1
      [(ps "foo", .arr [.num 3, .str (ps "00FF12")])] rfl)
    rw [h]
    rfl
  · exact extract_hex_search_c9.2.2.1 [.null, .str (ps "0C")]
  · rw [extract_hex_search_c9.2.2.2.2 5 (.str (ps "0A"))]
    rfl

/-! ## Claim C4 -/

theorem ldiff_two_pow_sub_one (n m : ℕ) :
    Nat.ldiff (2 ^ n - 1) m = 2 ^ n - 1 - m % 2 ^ n := by
  have hm : m % 2 ^ n < 2 ^ n := Nat.mod_lt _ (Nat.two_pow_pos n)
  have he : 2 ^ n - 1 - m % 2 ^ n = 2 ^ n - (m % 2 ^ n + 1) := by omega
  rw [he]
  apply Nat.eq_of_testBit_eq
  intro i
  rw [Nat.testBit_ldiff, Nat.testBit_two_pow_sub_one,
      Nat.testBit_two_pow_sub_succ hm, Nat.testBit_mod_two_pow]
  cases hd : decide (i < n) <;> cases hb : m.testBit i <;> simp

theorem int_land_two_pow_sub_one (x : ℤ) (n : ℕ) :
    Int.land x ((2 : ℤ) ^ n - 1) = x % 2 ^ n := by
  have h1 : (1 : ℕ) ≤ 2 ^ n := Nat.one_le_two_pow
  have hc : ((2 : ℤ) ^ n - 1) = ((2 ^ n - 1 : ℕ) : ℤ) := by
    push_cast [h1]
    ring
  have hcp : ((2 ^ n : ℕ) : ℤ) = (2 : ℤ) ^ n := by push_cast; ring
  cases x with
  | ofNat m =>
    rw [hc]
    have hland : Int.land (Int.ofNat m) (((2 ^ n - 1 : ℕ)) : ℤ) =
        ((m &&& (2 ^ n - 1) : ℕ) : ℤ) := rfl
    rw [hland, Nat.and_pow_two_sub_one_eq_mod]
    rw [show (Int.ofNat m) = ((m : ℕ) : ℤ) from rfl, ← hcp, ← Int.ofNat_emod]
  | negSucc m =>
    rw [hc]
    have hland : Int.land (Int.negSucc m) (((2 ^ n - 1 : ℕ)) : ℤ) =
        ((Nat.ldiff (2 ^ n - 1) m : ℕ) : ℤ) := rfl
    rw [hland, ldiff_two_pow_sub_one]
    have hpos : (0 : ℤ) < 2 ^ n := by positivity
    rw [Int.negSucc_emod m hpos]
    have hme : ((m : ℤ)) % 2 ^ n = ((m % 2 ^ n : ℕ) : ℤ) := by
      rw [← hcp, ← Int.ofNat_emod]
    rw [hme, ← hcp]
    have hm : m % 2 ^ n < 2 ^ n := Nat.mod_lt _ (Nat.two_pow_pos n)
    omega

theorem testBit_top_of_lt {un len : ℕ} (hpos : 0 < len) (hlt : un < 2 ^ len) :
    un.testBit (len - 1) = decide (2 ^ (len - 1) ≤ un) := by
  have hsplit : 2 ^ len = 2 ^ (len - 1) * 2 := by
    rw [← pow_succ]
    congr 1
    omega
  have hdiv2 : un / 2 ^ (len - 1) < 2 :=
    (Nat.div_lt_iff_lt_mul (Nat.two_pow_pos _)).mpr (by omega)
  rw [Nat.testBit_to_div_mod, Nat.mod_eq_of_lt hdiv2, decide_eq_decide]
  rw [show (un / 2 ^ (len - 1) = 1) ↔ (1 ≤ un / 2 ^ (len - 1)) by omega]
  exact Nat.one_le_div_iff (Nat.two_pow_pos _)

/-- **C4.** For integer formats with `start_bit` and `bit_length` set,
the bit slice is extraction by mask and shift with bit 0 least
significant: the unsigned slice equals `(v >> start) mod 2^len` and lies
in `[0, 2^len)`; the signed slice is the two's-complement
reinterpretation by the slice's own top bit: it is congruent to
`(v >> start)` modulo `2^len` and lies in `[-2^(len-1), 2^(len-1))`.
In particular byte `0xF0` with `start_bit = 4`, `bit_length = 4` decodes
to `15` under `uint_be` and to `-1` under `int_be`. -/
theorem bit_slice_c4 :
    (∀ (v : ℤ) (s len : ℕ), 0 < len →
      (_apply_bit_slice v s len false = Int.shiftRight v s % 2 ^ len ∧
       0 ≤ _apply_bit_slice v s len false ∧
       _apply_bit_slice v s len false < 2 ^ len ∧
       _apply_bit_slice v s len true % 2 ^ len = Int.shiftRight v s % 2 ^ len ∧
       -(2 ^ (len - 1)) ≤ _apply_bit_slice v s len true ∧
       _apply_bit_slice v s len true < 2 ^ (len - 1))) ∧
    decode_raw_value (ps "F0")
        { raw_format := ps "uint_be", start_bit := some 4, bit_length := some 4 } =
      .ok (.fin 15) ∧
    decode_raw_value (ps "F0")
        { raw_format := ps "int_be", start_bit := some 4, bit_length := some 4 } =
      .ok (.fin (-1)) := by
  refine ⟨?_, by with_unfolding_all rfl, by with_unfolding_all rfl⟩
  intro v s len hlen
  have hnle : ¬len ≤ 0 := by omega
  have hfalse_eq : _apply_bit_slice v s len false =
      Int.land (Int.shiftRight v s) (2 ^ len - 1) := by
    unfold _apply_bit_slice
    rw [if_neg hnle]
    rfl
  have htrue_eq : _apply_bit_slice v s len true =
      (if Int.land (Int.land (Int.shiftRight v s) (2 ^ len - 1)) (2 ^ (len - 1)) ≠ 0
       then Int.land (Int.shiftRight v s) (2 ^ len - 1) - 2 ^ len
       else Int.land (Int.shiftRight v s) (2 ^ len - 1)) := by
    unfold _apply_bit_slice
    rw [if_neg hnle]
    rfl
  have hmask := int_land_two_pow_sub_one (Int.shiftRight v s) len
  have hposZ : (0 : ℤ) < 2 ^ len := by positivity
  have hposH : (0 : ℤ) < 2 ^ (len - 1) := by positivity
  have hge : 0 ≤ Int.land (Int.shiftRight v s) (2 ^ len - 1) := by
    rw [hmask]
    exact Int.emod_nonneg _ (ne_of_gt hposZ)
  have hlt : Int.land (Int.shiftRight v s) (2 ^ len - 1) < 2 ^ len := by
    rw [hmask]
    exact Int.emod_lt_of_pos _ hposZ
  have hmm : Int.land (Int.shiftRight v s) (2 ^ len - 1) % 2 ^ len =
      Int.shiftRight v s % 2 ^ len := by
    rw [hmask]
    exact Int.emod_emod_of_dvd _ dvd_rfl
  obtain ⟨un, hun⟩ := Int.eq_ofNat_of_zero_le hge
  have hsplitZ : (2 : ℤ) ^ len = 2 ^ (len - 1) * 2 := by
    rw [← pow_succ]
    congr 1
    omega
  have hunlt : (un : ℤ) < 2 ^ len := hun ▸ hlt
  have hcastH : ((2 ^ (len - 1) : ℕ) : ℤ) = (2 : ℤ) ^ (len - 1) := by push_cast; ring
  have hunltN : un < 2 ^ len := by
    have h := hunlt
    rw [show (2 : ℤ) ^ len = ((2 ^ len : ℕ) : ℤ) by push_cast; ring] at h
    exact_mod_cast h
  have hsign : Int.land ((un : ℕ) : ℤ) ((2 : ℤ) ^ (len - 1)) =
      (((un &&& 2 ^ (len - 1) : ℕ)) : ℤ) := by
    rw [← hcastH]
    rfl
  have htop : un &&& 2 ^ (len - 1) = (un.testBit (len - 1)).toNat * 2 ^ (len - 1) :=
    Nat.and_two_pow un (len - 1)
  have htb : un.testBit (len - 1) = decide (2 ^ (len - 1) ≤ un) :=
    testBit_top_of_lt hlen hunltN
  refine ⟨by rw [hfalse_eq, hmask], by rw [hfalse_eq]; exact hge,
          by rw [hfalse_eq]; exact hlt, ?_, ?_, ?_⟩ <;>
    by_cases hc : 2 ^ (len - 1) ≤ un
  case pos =>
    have hcondT : Int.land (Int.land (Int.shiftRight v s) (2 ^ len - 1))
        (2 ^ (len - 1)) ≠ 0 := by
      rw [hun, hsign, htop, htb, decide_eq_true hc]
      simp only [Bool.toNat_true, one_mul]
      exact_mod_cast (Nat.two_pow_pos (len - 1)).ne'
    rw [htrue_eq, if_pos hcondT, Int.emod_sub_cancel]
    exact hmm
  case neg =>
    have hcondF : ¬Int.land (Int.land (Int.shiftRight v s) (2 ^ len - 1))
        (2 ^ (len - 1)) ≠ 0 := by
      rw [hun, hsign, htop, htb, decide_eq_false hc]
      simp
    rw [htrue_eq, if_neg hcondF]
    exact hmm
  case pos =>
    have hcondT : Int.land (Int.land (Int.shiftRight v s) (2 ^ len - 1))
        (2 ^ (len - 1)) ≠ 0 := by
      rw [hun, hsign, htop, htb, decide_eq_true hc]
      simp only [Bool.toNat_true, one_mul]
      exact_mod_cast (Nat.two_pow_pos (len - 1)).ne'
    have hcge : (2 : ℤ) ^ (len - 1) ≤ ((un : ℕ) : ℤ) := by
      rw [← hcastH]
      exact_mod_cast hc
    rw [htrue_eq, if_pos hcondT, hun]
    linarith
  case neg =>
    have hcondF : ¬Int.land (Int.land (Int.shiftRight v s) (2 ^ len - 1))
        (2 ^ (len - 1)) ≠ 0 := by
      rw [hun, hsign, htop, htb, decide_eq_false hc]
      simp
    have hge0 : (0 : ℤ) ≤ ((un : ℕ) : ℤ) := Int.ofNat_nonneg un
    rw [htrue_eq, if_neg hcondF, hun]
    linarith
  case pos =>
    have hcondT : Int.land (Int.land (Int.shiftRight v s) (2 ^ len - 1))
        (2 ^ (len - 1)) ≠ 0 := by
      rw [hun, hsign, htop, htb, decide_eq_true hc]
      simp only [Bool.toNat_true, one_mul]
      exact_mod_cast (Nat.two_pow_pos (len - 1)).ne'
    rw [htrue_eq, if_pos hcondT, hun]
    linarith
  case neg =>
    have hcondF : ¬Int.land (Int.land (Int.shiftRight v s) (2 ^ len - 1))
        (2 ^ (len - 1)) ≠ 0 := by
      rw [hun, hsign, htop, htb, decide_eq_false hc]
      simp
    have hcltH : ((un : ℕ) : ℤ) < 2 ^ (len - 1) := by
      rw [← hcastH]
      exact_mod_cast (by omega : un < 2 ^ (len - 1))
    rw [htrue_eq, if_neg hcondF, hun]
    exact hcltH

/-- Witness for C4's general clause at `v = -16`, `start_bit = 4`,
`bit_length = 4` (the `0xF0` byte read as a signed integer). -/
theorem bit_slice_c4_witness :
    0 < 4 ∧
    (_apply_bit_slice (-16) 4 4 false = Int.shiftRight (-16) 4 % 2 ^ 4 ∧
     0 ≤ _apply_bit_slice (-16) 4 4 false ∧
     _apply_bit_slice (-16) 4 4 false < 2 ^ 4 ∧
     _apply_bit_slice (-16) 4 4 true % 2 ^ 4 = Int.shiftRight (-16) 4 % 2 ^ 4 ∧
     -(2 ^ (4 - 1)) ≤ _apply_bit_slice (-16) 4 4 true ∧
     _apply_bit_slice (-16) 4 4 true < 2 ^ (4 - 1)) :=
  ⟨by decide, bit_slice_c4.1 (-16) 4 4 (by decide)⟩
